import Mathlib

/-!
Shallow embedding of `src/cron-builder.ts` (classes `CronValidator`,
`CronExpresion`, `CronBuilder`).

Conventions of the embedding:
* JavaScript strings are Lean `String`s; `String.prototype.split` with a
  one-character separator is modelled by `jsSplit`.
* `parseInt` is modelled by `jsParseInt : String → Option Int`, where
  `none` plays the role of `NaN` (every callsite only compares the result
  with `<` / `>`, and in JavaScript both comparisons are false on `NaN`).
  The callers only ever pass strings over the characters `0-9 * , \s`,
  so the hexadecimal branch of `parseInt` can never fire and is omitted.
* A thrown `Error` is an `Except.error` carrying a `CronError` that names
  the throw site; normal return is `Except.ok`.
* A field of the expression object holds JavaScript values that are either
  strings or arrays of strings: the statement
  `this.expression[measureOfTime] = [DEFAULT_INTERVAL];` in `set` stores
  the *array* `DEFAULT_INTERVAL` as a single element.  Tokens are
  therefore modelled by `JVal` with constructors `str` and `arr`, and
  `Array.prototype.join`'s element stringification by `jsValToString`.
* The `measureOfTime` argument is modelled by the closed inductive
  `MeasureOfTime`; the `Invalid measureOfTime` throw sites of the source
  only fire on strings outside that set and are thus unreachable in the
  embedding (every claim quantifies over the five legal fields only).
-/

/-- The five cron fields, in canonical order (source: `MeasureOfTimeMap`). -/
inductive MeasureOfTime where
  | minute
  | hour
  | dayOfTheMonth
  | month
  | dayOfTheWeek
deriving DecidableEq, Repr

/-- The five fields in positional order 0..4 (source: `MeasureOfTimeMap`). -/
def measureOfTimeList : List MeasureOfTime :=
  [.minute, .hour, .dayOfTheMonth, .month, .dayOfTheWeek]

/-- The name string of a field (source: values of `MeasureOfTimeMap`). -/
def measureName : MeasureOfTime → String
  | .minute => "minute"
  | .hour => "hour"
  | .dayOfTheMonth => "dayOfTheMonth"
  | .month => "month"
  | .dayOfTheWeek => "dayOfTheWeek"

/-- One error value per distinct throw site / error kind of the source.
`typeError` is the JavaScript `TypeError` raised by reading a property of
`undefined` (see `CronValidator.validateString`). -/
inductive CronError where
  | invalidMeasureOfTime
  | invalidCharacter
  | belowMinimum (m : MeasureOfTime)
  | aboveMaximum (m : MeasureOfTime)
  | tooManyValues
  | invalidValueType
  | typeError
deriving DecidableEq, Repr

/-- `validatorObj[m].min` (source lines 74-80). -/
def rangeMin : MeasureOfTime → Int
  | .month => 1
  | _ => 0

/-- `validatorObj[m].max` (source lines 74-80). -/
def rangeMax : MeasureOfTime → Int
  | .minute => 59
  | .hour => 23
  | .dayOfTheMonth => 30
  | .month => 12
  | .dayOfTheWeek => 6

/-- The JavaScript `\s` class, restricted to the ASCII whitespace
characters (tab, line feed, vertical tab, form feed, carriage return,
space); no other whitespace occurs in any input considered here. -/
def jsWhitespace (c : Char) : Bool :=
  c = ' ' || c = Char.ofNat 9 || c = Char.ofNat 10 || c = Char.ofNat 11 ||
    c = Char.ofNat 12 || c = Char.ofNat 13

/-- A character allowed by the regular expression `[^0-9\*\,\s]` test:
digits, asterisk, comma and whitespace. -/
def validChar (c : Char) : Bool :=
  c.isDigit || c = '*' || c = ',' || jsWhitespace c

/-- `validChars.test value`: true iff some character of the value is
outside the allowed class. -/
def hasInvalidChar (value : String) : Bool :=
  value.data.any (fun c => !(validChar c))

/-- Splitting a character list at every occurrence of `sep`
(JavaScript `String.prototype.split` with a one-character separator;
on the empty string it yields `[[]]`, as `"".split` yields `[""]`). -/
def splitAux (sep : Char) : List Char → List (List Char)
  | [] => [[]]
  | c :: rest =>
    match splitAux sep rest with
    | [] => [[]]
    | p :: ps => if c = sep then [] :: p :: ps else (c :: p) :: ps

/-- `s.split (sep)` for a one-character separator. -/
def jsSplit (sep : Char) (s : String) : List String :=
  (splitAux sep s.data).map String.mk

/-- Numeric value of a digit list read left to right. -/
def digitsVal (l : List Char) : Nat :=
  l.foldl (fun n c => 10 * n + (c.toNat - 48)) 0

/-- The longest leading digit run, or `none` when there is none
(`parseInt` returns `NaN` in that case). -/
def parseDigits (l : List Char) : Option Nat :=
  match l.takeWhile Char.isDigit with
  | [] => none
  | ds => some (digitsVal ds)

/-- JavaScript `parseInt` in base 10: skip leading whitespace, read an
optional sign and then the longest digit prefix; `none` models `NaN`. -/
def jsParseInt (s : String) : Option Int :=
  match s.data.dropWhile (fun c => jsWhitespace c) with
  | '-' :: rest => (parseDigits rest).map (fun n => -(n : Int))
  | '+' :: rest => (parseDigits rest).map (fun n => (n : Int))
  | l => (parseDigits l).map (fun n => (n : Int))

namespace CronValidator

/-- The two range comparisons of `validateValue` (source lines 102-107):
`parseInt value < min` throws, then `parseInt value > max` throws.  When
`parseInt` yields `NaN` both comparisons are false and the value passes. -/
def validateRange (m : MeasureOfTime) (value : String) : Except CronError Unit :=
  match jsParseInt value with
  | none => .ok ()
  | some n =>
    if n < rangeMin m then .error (.belowMinimum m)
    else if n > rangeMax m then .error (.aboveMaximum m)
    else .ok ()

/-- The recursive call `validateValue m e` that `validateValue` makes on
each part `e` of `value.split (comma)`.  A part produced by `split` never
contains the separator, so on these arguments the comma branch of the
source is vacuous and the recursion is unfolded exactly one level: the
remaining checks are the character test, the wildcard test and the range
test, in source order. -/
def validateValuePart (m : MeasureOfTime) (value : String) : Except CronError Unit :=
  if hasInvalidChar value then .error .invalidCharacter
  else if value = "*" then .ok ()
  else validateRange m value

/-- `splittedValues.forEach (e => this.validateValue m e)`: an exception
thrown inside `forEach` propagates immediately, so the iteration stops at
the first error. -/
def validateValueParts (m : MeasureOfTime) : List String → Except CronError Unit
  | [] => .ok ()
  | p :: ps =>
    match validateValuePart m p with
    | .error e => .error e
    | .ok _ => validateValueParts m ps

/-- `CronValidator.validateValue` (source lines 73-110): character test,
wildcard test, comma split with per-part validation, range test. -/
def validateValue (m : MeasureOfTime) (value : String) : Except CronError Unit :=
  if hasInvalidChar value then .error .invalidCharacter
  else if value = "*" then .ok ()
  else if ',' ∈ value.data then validateValueParts m (jsSplit ',' value)
  else validateRange m value

/-- `CronValidator.validateString` (source lines 54-64).  After the length
check the loop body evaluates `CronValidator.splitExpression[i]`, but the
class has no static property `splitExpression`: reading `undefined[i]`
throws a `TypeError` on the first iteration.  `split` never returns an
empty array, so the loop body runs for every input and the function always
throws. -/
def validateString (expression : String) : Except CronError Unit :=
  let splitExpression := jsSplit ' ' expression
  if splitExpression.length > 5 then .error .tooManyValues
  else
    match splitExpression with
    | [] => .ok ()
    | _ :: _ => .error .typeError

end CronValidator

/-- `DEFAULT_INTERVAL` (source line 1). -/
def DEFAULT_INTERVAL : List String := ["*"]

/-- A JavaScript value stored in a field's token array: either a string
token or an array of strings (the latter only arises from
`this.expression[m] = [DEFAULT_INTERVAL]` in `set`). -/
inductive JVal where
  | str (s : String)
  | arr (l : List String)
deriving DecidableEq, Repr

/-- `Array.prototype.join` stringification of one element: a string joins
as itself, a nested array as its own comma-join. -/
def jsValToString : JVal → String
  | .str s => s
  | .arr l => String.intercalate "," l

/-- The token list of a field that holds the default interval. -/
def defaultField : List JVal := DEFAULT_INTERVAL.map JVal.str

/-- The state owned by a `CronBuilder` (source class `CronExpresion`). -/
structure CronExpresion where
  minute : List JVal
  hour : List JVal
  dayOfTheMonth : List JVal
  month : List JVal
  dayOfTheWeek : List JVal
deriving DecidableEq, Repr

/-- `this.expression[m]`. -/
def getField (s : CronExpresion) : MeasureOfTime → List JVal
  | .minute => s.minute
  | .hour => s.hour
  | .dayOfTheMonth => s.dayOfTheMonth
  | .month => s.month
  | .dayOfTheWeek => s.dayOfTheWeek

/-- `this.expression[m] = v`. -/
def setField (s : CronExpresion) : MeasureOfTime → List JVal → CronExpresion
  | .minute, v => { s with minute := v }
  | .hour, v => { s with hour := v }
  | .dayOfTheMonth, v => { s with dayOfTheMonth := v }
  | .month, v => { s with month := v }
  | .dayOfTheWeek, v => { s with dayOfTheWeek := v }

/-- `this.expression[m].join (comma)`. -/
def joinField (l : List JVal) : String :=
  String.intercalate "," (l.map jsValToString)

/-- The expression of a builder constructed with no argument
(source lines 146-152). -/
def defaultExpression : CronExpresion :=
  { minute := defaultField, hour := defaultField, dayOfTheMonth := defaultField,
    month := defaultField, dayOfTheWeek := defaultField }

namespace CronBuilder

/-- `new CronBuilder (initialExpression?)` (source lines 129-154).  With an
argument it first calls `CronValidator.validateString`, which always
throws (see there), so construction with an initial expression never
succeeds; the field-seeding code after the call is nevertheless embedded
faithfully.  A part that is `undefined` (index past the split) or the
empty string (falsy) defaults the field. -/
def fieldFromPart : Option String → List JVal
  | none => defaultField
  | some p => if p = "" then defaultField else (jsSplit ',' p).map JVal.str

/-- The constructor itself; `none` models calling `new CronBuilder ()`. -/
def new : Option String → Except CronError CronExpresion
  | none => .ok defaultExpression
  | some initialExpression =>
    match CronValidator.validateString initialExpression with
    | .error e => .error e
    | .ok _ =>
      let splitExpression := jsSplit ' ' initialExpression
      .ok { minute := fieldFromPart (splitExpression.get? 0),
            hour := fieldFromPart (splitExpression.get? 1),
            dayOfTheMonth := fieldFromPart (splitExpression.get? 2),
            month := fieldFromPart (splitExpression.get? 3),
            dayOfTheWeek := fieldFromPart (splitExpression.get? 4) }

/-- `build ()` (source lines 160-168). -/
def build (s : CronExpresion) : String :=
  String.intercalate " "
    [joinField s.minute, joinField s.hour, joinField s.dayOfTheMonth,
      joinField s.month, joinField s.dayOfTheWeek]

/-- The `forEach` loop of `addValue` (source lines 182-187): for each part
`e` of `value.split (comma)`, if `e` is not strictly equal to an element of
the current array, push the whole `value` string (the source pushes
`value`, not `e`).  `indexOf` uses strict equality, so a nested-array
element never matches the string `e`. -/
def addParts (value : String) : List JVal → List String → List JVal
  | cur, [] => cur
  | cur, e :: es =>
    addParts value (if JVal.str e ∈ cur then cur else cur ++ [JVal.str value]) es

/-- `addValue (measureOfTime, value)` (source lines 176-189).  Returns the
validation outcome and the state after the call (unchanged on a throw,
which happens before any mutation). -/
def addValue (m : MeasureOfTime) (value : String) (s : CronExpresion) :
    Except CronError Unit × CronExpresion :=
  match CronValidator.validateValue m value with
  | .error e => (.error e, s)
  | .ok _ =>
    let cur := getField s m
    if cur = [JVal.str "*"] then (.ok (), setField s m [JVal.str value])
    else (.ok (), setField s m (addParts value cur (jsSplit ',' value)))

/-- The informational sentinel returned by `removeValue` on a default
field (source line 203). -/
def noOpMessage (m : MeasureOfTime) : String :=
  "The value for \"" ++ measureName m ++
    "\" is already at the default value of \"*\" - this is a no-op."

/-- `removeValue (measureOfTime, value)` (source lines 197-213).  The
result is `some` the sentinel message on the no-op path and `none`
(JavaScript `undefined`) otherwise.  The filter keeps the elements not
strictly equal to `value`; an emptied field is reset to
`DEFAULT_INTERVAL`. -/
def removeValue (m : MeasureOfTime) (value : String) (s : CronExpresion) :
    Except CronError (Option String) × CronExpresion :=
  let cur := getField s m
  if cur = [JVal.str "*"] then (.ok (some (noOpMessage m)), s)
  else
    let filtered := cur.filter (fun t => t ≠ JVal.str value)
    if filtered = [] then (.ok none, setField s m (DEFAULT_INTERVAL.map JVal.str))
    else (.ok none, setField s m filtered)

/-- `get (measureOfTime)` (source lines 221-227). -/
def get (m : MeasureOfTime) (s : CronExpresion) : String :=
  joinField (getField s m)

/-- The argument of `set`: the `Array.isArray` test distinguishes an array
of strings from any non-array value. -/
inductive SetArg where
  | array (vs : List String)
  | notAnArray
deriving DecidableEq, Repr

/-- The validation loop of `set` (source lines 244-246): every element is
validated, in order, before the assignment; the first throw aborts. -/
def validateElems (m : MeasureOfTime) : List String → Except CronError Unit
  | [] => .ok ()
  | v :: vs =>
    match CronValidator.validateValue m v with
    | .error e => .error e
    | .ok _ => validateElems m vs

/-- `set (measureOfTime, value)` (source lines 237-252).  On the empty
array the source assigns `[DEFAULT_INTERVAL]`, that is the one-element
array whose element is the array `DEFAULT_INTERVAL`.  On success the
comma-join of the new field is returned. -/
def set (m : MeasureOfTime) (value : SetArg) (s : CronExpresion) :
    Except CronError String × CronExpresion :=
  match value with
  | .notAnArray => (.error .invalidValueType, s)
  | .array [] =>
    let s2 := setField s m [JVal.arr DEFAULT_INTERVAL]
    (.ok (joinField (getField s2 m)), s2)
  | .array (v :: vs) =>
    match validateElems m (v :: vs) with
    | .error e => (.error e, s)
    | .ok _ =>
      let s2 := setField s m ((v :: vs).map JVal.str)
      (.ok (joinField (getField s2 m)), s2)

/-- `getAll ()` (source lines 264-266): returns the expression itself. -/
def getAll (s : CronExpresion) : CronExpresion := s

end CronBuilder

/-- The argument of `setAll` / `validateExpression`: an object with a
subset of the five fields, each holding an array of strings.  (Keys
outside the five field names are not modelled; no claim involves them.) -/
structure CronExpressionInput where
  minute : Option (List String) := none
  hour : Option (List String) := none
  dayOfTheMonth : Option (List String) := none
  month : Option (List String) := none
  dayOfTheWeek : Option (List String) := none
deriving DecidableEq, Repr

/-- `expToSet[m]`. -/
def inputField (eo : CronExpressionInput) : MeasureOfTime → Option (List String)
  | .minute => eo.minute
  | .hour => eo.hour
  | .dayOfTheMonth => eo.dayOfTheMonth
  | .month => eo.month
  | .dayOfTheWeek => eo.dayOfTheWeek

/-- `Object.keys (expToSet)` with each key paired with its value, in
canonical field order (the iteration order of a JavaScript object literal
depends on the literal, but every use below either validates all entries
or calls `set` on distinct fields, so the order is immaterial). -/
def presentEntries (eo : CronExpressionInput) : List (MeasureOfTime × List String) :=
  measureOfTimeList.filterMap (fun m => (inputField eo m).map (fun vs => (m, vs)))

namespace CronValidator

/-- The loop of `validateExpression` (source lines 42-46), applied to the
comma-joined form of each supplied field (`setAll` builds exactly that
object before calling; source lines 282-284). -/
def validateExpressionFields : List (MeasureOfTime × List String) → Except CronError Unit
  | [] => .ok ()
  | (m, vs) :: rest =>
    match validateValue m (String.intercalate "," vs) with
    | .error e => .error e
    | .ok _ => validateExpressionFields rest

/-- `CronValidator.validateExpression` (source lines 36-47): the key-count
check, then per-field validation of the joined values. -/
def validateExpression (eo : CronExpressionInput) : Except CronError Unit :=
  if (presentEntries eo).length > 5 then .error .tooManyValues
  else validateExpressionFields (presentEntries eo)

end CronValidator

namespace CronBuilder

/-- The second loop of `setAll` (source lines 286-288): call `set` on each
supplied field in turn; a throw aborts the loop but keeps the mutations
already made. -/
def setAllSets : List (MeasureOfTime × List String) → CronExpresion →
    Except CronError Unit × CronExpresion
  | [], s => (.ok (), s)
  | (m, vs) :: rest, s =>
    match set m (.array vs) s with
    | (.error e, s2) => (.error e, s2)
    | (.ok _, s2) => setAllSets rest s2

/-- `setAll (expToSet)` (source lines 279-289): validate the comma-joined
object, then `set` each supplied field. -/
def setAll (eo : CronExpressionInput) (s : CronExpresion) :
    Except CronError Unit × CronExpresion :=
  match CronValidator.validateExpression eo with
  | .error e => (.error e, s)
  | .ok _ => setAllSets (presentEntries eo) s

end CronBuilder

/-- One public mutating builder call, for stating properties of arbitrary
call sequences. -/
inductive Op where
  | addValue (m : MeasureOfTime) (value : String)
  | removeValue (m : MeasureOfTime) (value : String)
  | set (m : MeasureOfTime) (value : CronBuilder.SetArg)
  | setAll (eo : CronExpressionInput)

/-- The state after one call (the returned value is discarded; a throw
leaves the state as the call left it, which for every single call is the
prior state except for `setAll`, whose partial mutations are kept). -/
def applyOp (s : CronExpresion) : Op → CronExpresion
  | .addValue m v => (CronBuilder.addValue m v s).2
  | .removeValue m v => (CronBuilder.removeValue m v s).2
  | .set m a => (CronBuilder.set m a s).2
  | .setAll eo => (CronBuilder.setAll eo s).2

/-- The state after a sequence of calls. -/
def runOps (s : CronExpresion) (ops : List Op) : CronExpresion :=
  ops.foldl applyOp s

/-! ### Invariant predicates and helper lemmas -/

/-- A field list that never mixes the wildcard string token with anything
else: if the token `*` occurs, the list is exactly `[*]`. -/
def WildFieldOK (l : List JVal) : Prop :=
  JVal.str "*" ∈ l → l = [JVal.str "*"]

/-- Wildcard exclusivity for every field of a state. -/
def WildOK (s : CronExpresion) : Prop :=
  ∀ m, WildFieldOK (getField s m)

/-- Every field of the state holds a non-empty list. -/
def FieldsNonempty (s : CronExpresion) : Prop :=
  ∀ m, getField s m ≠ []

/-- The call passes no `*` token inside an explicit value: `addValue`
values have no `*` among their comma-split parts, and `set` / `setAll`
lists have no `*` element. -/
def NoStarOp : Op → Prop
  | .addValue _ v => "*" ∉ jsSplit ',' v
  | .removeValue _ _ => True
  | .set _ (.array vs) => "*" ∉ vs
  | .set _ .notAnArray => True
  | .setAll eo => ∀ m vs, inputField eo m = some vs → "*" ∉ vs

theorem getField_setField_same (s : CronExpresion) (m : MeasureOfTime) (v : List JVal) :
    getField (setField s m v) m = v := by
  cases m <;> rfl

theorem getField_setField_ne (s : CronExpresion) {m m' : MeasureOfTime} {v : List JVal}
    (h : m' ≠ m) : getField (setField s m v) m' = getField s m' := by
  cases m <;> cases m' <;> first | rfl | exact absurd rfl h

theorem fieldsNonempty_setField {s : CronExpresion} {m : MeasureOfTime} {v : List JVal}
    (h : FieldsNonempty s) (hv : v ≠ []) : FieldsNonempty (setField s m v) := by
  intro m'
  by_cases hm : m' = m
  · subst hm; rw [getField_setField_same]; exact hv
  · rw [getField_setField_ne _ hm]; exact h m'

theorem wildOK_setField {s : CronExpresion} {m : MeasureOfTime} {v : List JVal}
    (h : WildOK s) (hv : WildFieldOK v) : WildOK (setField s m v) := by
  intro m'
  by_cases hm : m' = m
  · subst hm; rw [getField_setField_same]; exact hv
  · rw [getField_setField_ne _ hm]; exact h m'

theorem addParts_ne_nil (value : String) (cur : List JVal) (parts : List String)
    (h : cur ≠ []) : CronBuilder.addParts value cur parts ≠ [] := by
  induction parts generalizing cur with
  | nil => exact h
  | cons e es ih =>
    rw [CronBuilder.addParts]
    apply ih
    split
    · exact h
    · simp

theorem addParts_no_star (value : String) (cur : List JVal) (parts : List String)
    (hcur : JVal.str "*" ∉ cur) (hv : value ≠ "*") :
    JVal.str "*" ∉ CronBuilder.addParts value cur parts := by
  induction parts generalizing cur with
  | nil => exact hcur
  | cons e es ih =>
    rw [CronBuilder.addParts]
    apply ih
    split
    · exact hcur
    · intro hmem
      rcases List.mem_append.mp hmem with h1 | h1
      · exact hcur h1
      · rw [List.mem_singleton] at h1
        exact hv (JVal.str.injEq _ _ ▸ h1.symm ▸ rfl)

theorem ne_star_of_not_mem_split {v : String} (h : ("*" : String) ∉ jsSplit ',' v) :
    v ≠ "*" := by
  intro hv
  subst hv
  exact h (by decide)

theorem star_not_mem_of_wildFieldOK {l : List JVal} (h : WildFieldOK l)
    (hne : l ≠ [JVal.str "*"]) : JVal.str "*" ∉ l :=
  fun hmem => hne (h hmem)

theorem fieldsNonempty_addValue (m : MeasureOfTime) (v : String) (s : CronExpresion)
    (h : FieldsNonempty s) : FieldsNonempty (CronBuilder.addValue m v s).2 := by
  rw [CronBuilder.addValue]
  split
  · exact h
  · dsimp only
    split
    · exact fieldsNonempty_setField h (by simp)
    · exact fieldsNonempty_setField h (addParts_ne_nil _ _ _ (h m))

theorem fieldsNonempty_removeValue (m : MeasureOfTime) (v : String) (s : CronExpresion)
    (h : FieldsNonempty s) : FieldsNonempty (CronBuilder.removeValue m v s).2 := by
  rw [CronBuilder.removeValue]
  split
  · exact h
  · dsimp only
    split
    · exact fieldsNonempty_setField h (by simp [DEFAULT_INTERVAL])
    · next hne => exact fieldsNonempty_setField h hne

theorem fieldsNonempty_set (m : MeasureOfTime) (a : CronBuilder.SetArg) (s : CronExpresion)
    (h : FieldsNonempty s) : FieldsNonempty (CronBuilder.set m a s).2 := by
  rw [CronBuilder.set.eq_def]
  split
  · exact h
  · exact fieldsNonempty_setField h (by simp)
  · split
    · exact h
    · exact fieldsNonempty_setField h (by simp)

theorem fieldsNonempty_setAllSets (entries : List (MeasureOfTime × List String))
    (s : CronExpresion) (h : FieldsNonempty s) :
    FieldsNonempty (CronBuilder.setAllSets entries s).2 := by
  induction entries generalizing s with
  | nil => exact h
  | cons e rest ih =>
    obtain ⟨m, vs⟩ := e
    rw [CronBuilder.setAllSets]
    split
    · next heq =>
      have := fieldsNonempty_set m (.array vs) s h
      rw [heq] at this
      exact this
    · next heq =>
      apply ih
      have := fieldsNonempty_set m (.array vs) s h
      rw [heq] at this
      exact this

theorem fieldsNonempty_setAll (eo : CronExpressionInput) (s : CronExpresion)
    (h : FieldsNonempty s) : FieldsNonempty (CronBuilder.setAll eo s).2 := by
  rw [CronBuilder.setAll]
  split
  · exact h
  · exact fieldsNonempty_setAllSets _ _ h

theorem fieldsNonempty_applyOp (s : CronExpresion) (op : Op)
    (h : FieldsNonempty s) : FieldsNonempty (applyOp s op) := by
  cases op with
  | addValue m v => exact fieldsNonempty_addValue m v s h
  | removeValue m v => exact fieldsNonempty_removeValue m v s h
  | set m a => exact fieldsNonempty_set m a s h
  | setAll eo => exact fieldsNonempty_setAll eo s h

theorem fieldsNonempty_default : FieldsNonempty defaultExpression := by
  intro m
  cases m <;> simp [defaultExpression, getField, defaultField, DEFAULT_INTERVAL]

theorem fieldsNonempty_runOps (ops : List Op) (s : CronExpresion)
    (h : FieldsNonempty s) : FieldsNonempty (runOps s ops) := by
  induction ops generalizing s with
  | nil => exact h
  | cons op ops ih => exact ih (applyOp s op) (fieldsNonempty_applyOp s op h)

theorem wildOK_addValue (m : MeasureOfTime) (v : String) (s : CronExpresion)
    (hstar : ("*" : String) ∉ jsSplit ',' v) (h : WildOK s) :
    WildOK (CronBuilder.addValue m v s).2 := by
  have hv : v ≠ "*" := ne_star_of_not_mem_split hstar
  rw [CronBuilder.addValue]
  split
  · exact h
  · dsimp only
    split
    · apply wildOK_setField h
      intro hmem
      rw [List.mem_singleton] at hmem
      injection hmem with h2
      exact absurd h2.symm hv
    · next hne =>
      apply wildOK_setField h
      intro hmem
      exact absurd hmem (addParts_no_star v _ _ (star_not_mem_of_wildFieldOK (h m) hne) hv)

theorem wildOK_removeValue (m : MeasureOfTime) (v : String) (s : CronExpresion)
    (h : WildOK s) : WildOK (CronBuilder.removeValue m v s).2 := by
  rw [CronBuilder.removeValue]
  split
  · exact h
  · next hne =>
    dsimp only
    split
    · apply wildOK_setField h
      intro _
      rfl
    · apply wildOK_setField h
      intro hmem
      have hmem2 : JVal.str "*" ∈ getField s m := List.mem_of_mem_filter hmem
      exact absurd hmem2 (star_not_mem_of_wildFieldOK (h m) hne)

theorem wildOK_set (m : MeasureOfTime) (a : CronBuilder.SetArg) (s : CronExpresion)
    (hstar : ∀ vs, a = CronBuilder.SetArg.array vs → ("*" : String) ∉ vs)
    (h : WildOK s) : WildOK (CronBuilder.set m a s).2 := by
  rw [CronBuilder.set.eq_def]
  split
  · exact h
  · apply wildOK_setField h
    intro hmem
    simp [DEFAULT_INTERVAL] at hmem
  · next v vs =>
    split
    · exact h
    · apply wildOK_setField h
      intro hmem
      rw [List.mem_map] at hmem
      obtain ⟨x, hx, hx2⟩ := hmem
      injection hx2 with h2
      rw [h2] at hx
      exact absurd hx (hstar (v :: vs) rfl)

theorem wildOK_setAllSets (entries : List (MeasureOfTime × List String))
    (s : CronExpresion) (hstar : ∀ p ∈ entries, ("*" : String) ∉ p.2)
    (h : WildOK s) : WildOK (CronBuilder.setAllSets entries s).2 := by
  induction entries generalizing s with
  | nil => exact h
  | cons e rest ih =>
    obtain ⟨m, vs⟩ := e
    have hset : WildOK (CronBuilder.set m (.array vs) s).2 := by
      apply wildOK_set m (.array vs) s ?_ h
      intro vs' hvs'
      injection hvs' with h2
      rw [← h2]
      exact hstar (m, vs) (List.mem_cons_self _ _)
    rw [CronBuilder.setAllSets]
    split
    · next heq =>
      rw [heq] at hset
      exact hset
    · next heq =>
      apply ih _ ?_
      · rw [heq] at hset
        exact hset
      · intro p hp
        exact hstar p (List.mem_cons_of_mem _ hp)

theorem inputField_of_mem_presentEntries {eo : CronExpressionInput}
    {m : MeasureOfTime} {vs : List String}
    (h : (m, vs) ∈ presentEntries eo) : inputField eo m = some vs := by
  rw [presentEntries, List.mem_filterMap] at h
  obtain ⟨m', _, hm'⟩ := h
  rw [Option.map_eq_some'] at hm'
  obtain ⟨vs', hvs', heq⟩ := hm'
  injection heq with h1 h2
  rw [← h1, hvs', h2]

theorem wildOK_setAll (eo : CronExpressionInput) (s : CronExpresion)
    (hstar : ∀ m vs, inputField eo m = some vs → ("*" : String) ∉ vs)
    (h : WildOK s) : WildOK (CronBuilder.setAll eo s).2 := by
  rw [CronBuilder.setAll]
  split
  · exact h
  · apply wildOK_setAllSets _ _ ?_ h
    intro p hp
    exact hstar p.1 p.2 (inputField_of_mem_presentEntries hp)

theorem wildOK_applyOp (s : CronExpresion) (op : Op)
    (hop : NoStarOp op) (h : WildOK s) : WildOK (applyOp s op) := by
  cases op with
  | addValue m v => exact wildOK_addValue m v s hop h
  | removeValue m v => exact wildOK_removeValue m v s h
  | set m a =>
    apply wildOK_set m a s ?_ h
    intro vs hvs
    subst hvs
    exact hop
  | setAll eo => exact wildOK_setAll eo s hop h

theorem wildOK_default : WildOK defaultExpression := by
  intro m
  cases m <;> exact fun _ => rfl

theorem wildOK_runOps (ops : List Op) (s : CronExpresion)
    (hops : ∀ op ∈ ops, NoStarOp op) (h : WildOK s) : WildOK (runOps s ops) := by
  induction ops generalizing s with
  | nil => exact h
  | cons op ops ih =>
    exact ih (applyOp s op)
      (fun o ho => hops o (List.mem_cons_of_mem _ ho))
      (wildOK_applyOp s op (hops op (List.mem_cons_self _ _)) h)

theorem set_frame {m m' : MeasureOfTime} (a : CronBuilder.SetArg) (s : CronExpresion)
    (h : m' ≠ m) : getField (CronBuilder.set m a s).2 m' = getField s m' := by
  rw [CronBuilder.set.eq_def]
  split
  · rfl
  · exact getField_setField_ne _ h
  · split
    · rfl
    · exact getField_setField_ne _ h

theorem setAllSets_frame (entries : List (MeasureOfTime × List String))
    (s : CronExpresion) (m : MeasureOfTime)
    (h : ∀ vs, (m, vs) ∉ entries) :
    getField (CronBuilder.setAllSets entries s).2 m = getField s m := by
  induction entries generalizing s with
  | nil => rfl
  | cons e rest ih =>
    obtain ⟨m', vs'⟩ := e
    have hm : m ≠ m' := by
      intro hmm
      exact h vs' (hmm ▸ List.mem_cons_self _ _)
    have hframe : getField (CronBuilder.set m' (.array vs') s).2 m = getField s m :=
      set_frame _ s hm
    rw [CronBuilder.setAllSets]
    split
    · next heq =>
      rw [heq] at hframe
      exact hframe
    · next heq =>
      rw [ih _ fun vs hvs => h vs (List.mem_cons_of_mem _ hvs)]
      rw [heq] at hframe
      exact hframe

theorem not_mem_presentEntries {eo : CronExpressionInput} {m : MeasureOfTime}
    (h : inputField eo m = none) : ∀ vs, (m, vs) ∉ presentEntries eo := by
  intro vs hmem
  rw [inputField_of_mem_presentEntries hmem] at h
  exact Option.noConfusion h

theorem joinField_default : joinField (DEFAULT_INTERVAL.map JVal.str) = "*" := rfl

theorem joinField_single_arr : joinField [JVal.arr DEFAULT_INTERVAL] = "*" := rfl

/-! ### Claim theorems -/

/-- C1: constructing a `CronBuilder` from the valid canonical string
`"0 0 1 1 0"` does not succeed: `validateString` reads the nonexistent
static property `CronValidator.splitExpression` and throws a `TypeError`
on every input, so the constructor rethrows and no builder is produced
(the claim's round trip is therefore impossible on the code as written). -/
theorem construction_from_string_throws :
    CronValidator.validateString "0 0 1 1 0" = .error .typeError
    ∧ CronBuilder.new (some "0 0 1 1 0") = .error .typeError :=
  ⟨rfl, rfl⟩

/-- C2: on a default builder, `addValue hour "5"` then `addValue hour "10"`
does yield `get hour = "5,10"` (the claim's concrete example), but the
general clause fails: the loop of `addValue` pushes the whole un-split
`value` string once per missing part, so `addValue hour "7,8"` after
`addValue hour "5"` produces the token list `["5", "7,8", "7,8"]` and
`get hour = "5,7,8,7,8"` instead of appending the individual parts
`"7"` and `"8"`. -/
theorem addValue_appends_unsplit_value :
    CronBuilder.get .hour ((CronBuilder.addValue .hour "10"
      ((CronBuilder.addValue .hour "5" defaultExpression).2)).2) = "5,10"
    ∧ getField ((CronBuilder.addValue .hour "7,8"
      ((CronBuilder.addValue .hour "5" defaultExpression).2)).2) .hour
        = [JVal.str "5", JVal.str "7,8", JVal.str "7,8"]
    ∧ CronBuilder.get .hour ((CronBuilder.addValue .hour "7,8"
      ((CronBuilder.addValue .hour "5" defaultExpression).2)).2) = "5,7,8,7,8" :=
  ⟨rfl, rfl, rfl⟩

/-- C3 counterexample: the wildcard-exclusivity invariant fails as stated:
after `addValue minute "5"` then `addValue minute "*"` (both calls pass
validation, since `*` is always a legal value), the minute field is
`["5", "*"]`, which contains a token other than `*` together with `*`. -/
theorem wildcard_joins_explicit_value :
    getField (runOps defaultExpression
      [.addValue .minute "5", .addValue .minute "*"]) .minute
        = [JVal.str "5", JVal.str "*"]
    ∧ JVal.str "5" ∈ ([JVal.str "5", JVal.str "*"] : List JVal)
    ∧ JVal.str "5" ≠ JVal.str "*"
    ∧ JVal.str "*" ∈ ([JVal.str "5", JVal.str "*"] : List JVal) :=
  ⟨rfl, by decide, by decide, by decide⟩

/-- C3 (amended): wildcard exclusivity holds for every sequence of builder
operations in which no `*` token is passed inside an explicit value
(no `*` among the comma-split parts of an `addValue` value, no `*`
element in a `set` or `setAll` list): starting from the default builder,
a field containing any token other than `*` never also contains the
token `*`. -/
theorem wildcard_exclusive_of_no_star (ops : List Op)
    (hops : ∀ op ∈ ops, NoStarOp op) (m : MeasureOfTime) (t : JVal)
    (ht : t ∈ getField (runOps defaultExpression ops) m)
    (hne : t ≠ JVal.str "*") :
    JVal.str "*" ∉ getField (runOps defaultExpression ops) m := by
  intro hstar
  have hl := wildOK_runOps ops defaultExpression hops wildOK_default m hstar
  rw [hl] at ht
  rw [List.mem_singleton] at ht
  exact hne ht

/-- Witness for `wildcard_exclusive_of_no_star` at the concrete sequence
`[addValue minute "5"]`. -/
theorem wildcard_exclusive_of_no_star_witness :
    NoStarOp (Op.addValue .minute "5")
    ∧ JVal.str "5" ∈ getField (runOps defaultExpression
        [Op.addValue .minute "5"]) .minute
    ∧ JVal.str "*" ∉ getField (runOps defaultExpression
        [Op.addValue .minute "5"]) .minute :=
  ⟨by show ("*" : String) ∉ jsSplit ',' "5"; decide,
   by decide,
   wildcard_exclusive_of_no_star [Op.addValue .minute "5"]
     (by
       intro op hop
       rw [List.mem_singleton] at hop
       subst hop
       show ("*" : String) ∉ jsSplit ',' "5"
       decide)
     .minute (JVal.str "5") (by decide) (by decide)⟩

/-- C4 counterexample: for the minute field, `min - 1 = -1`, and
`validateValue minute "-1"` fails with `InvalidCharacter` (the `-` sign is
outside the allowed character class and is rejected before the range
check), not with `OutOfRange` as the claim states. -/
theorem min_minus_one_rejected_as_character :
    CronValidator.validateValue .minute (toString (rangeMin .minute - 1))
      = .error .invalidCharacter
    ∧ CronError.invalidCharacter ≠ CronError.belowMinimum .minute
    ∧ CronError.invalidCharacter ≠ CronError.aboveMaximum .minute :=
  ⟨rfl, by decide, by decide⟩

/-- C4 (amended): every in-range integer token passes `validateValue`;
`max + 1` fails with `OutOfRange` (above the maximum); `min - 1` fails
with `OutOfRange` (below the minimum) when `min > 0` (the month field),
but with `InvalidCharacter` when `min = 0`, because the `-` of a negative
decimal token is rejected by the character test before the range test;
and `set minute ["60"]` fails with `OutOfRange` and mutates nothing. -/
theorem validateValue_range_behaviour :
    (∀ (m : MeasureOfTime) (t : Int), rangeMin m ≤ t → t ≤ rangeMax m →
      CronValidator.validateValue m (toString t) = .ok ())
    ∧ (∀ m : MeasureOfTime,
      CronValidator.validateValue m (toString (rangeMax m + 1))
        = .error (.aboveMaximum m))
    ∧ (∀ m : MeasureOfTime,
      CronValidator.validateValue m (toString (rangeMin m - 1))
        = if rangeMin m = 0 then .error .invalidCharacter
          else .error (.belowMinimum m))
    ∧ (∀ s : CronExpresion,
      CronBuilder.set .minute (.array ["60"]) s
        = (.error (.aboveMaximum .minute), s)) := by
  refine ⟨?_, ?_, ?_, fun s => rfl⟩
  · intro m t h1 h2
    cases m
    case minute =>
      have h1' : (0 : Int) ≤ t := h1
      have h2' : t ≤ 59 := h2
      interval_cases t <;> rfl
    case hour =>
      have h1' : (0 : Int) ≤ t := h1
      have h2' : t ≤ 23 := h2
      interval_cases t <;> rfl
    case dayOfTheMonth =>
      have h1' : (0 : Int) ≤ t := h1
      have h2' : t ≤ 30 := h2
      interval_cases t <;> rfl
    case month =>
      have h1' : (1 : Int) ≤ t := h1
      have h2' : t ≤ 12 := h2
      interval_cases t <;> rfl
    case dayOfTheWeek =>
      have h1' : (0 : Int) ≤ t := h1
      have h2' : t ≤ 6 := h2
      interval_cases t <;> rfl
  · intro m
    cases m <;> rfl
  · intro m
    cases m <;> rfl

/-- Witness for `validateValue_range_behaviour` at the minute field and
the in-range token 5. -/
theorem validateValue_range_behaviour_witness :
    rangeMin .minute ≤ (5 : Int) ∧ (5 : Int) ≤ rangeMax .minute
    ∧ CronValidator.validateValue .minute (toString (5 : Int)) = .ok () :=
  ⟨by decide, by decide,
   validateValue_range_behaviour.1 .minute 5 (by decide) (by decide)⟩

/-- C5: on the empty array, `set` does not reset the field to the default
`["*"]`: it assigns `[DEFAULT_INTERVAL]`, a one-element array whose
element is the array `["*"]`.  The field then serializes as `"*"` but is
not the default token list, and a subsequent `addValue hour "5"` treats it
as non-default and appends, yielding `get hour = "*,5"` instead of
replacing wholesale to give `"5"`. -/
theorem set_empty_stores_nested_default :
    getField ((CronBuilder.set .hour (.array []) defaultExpression).2) .hour
      = [JVal.arr ["*"]]
    ∧ ([JVal.arr ["*"]] : List JVal) ≠ defaultField
    ∧ CronBuilder.get .hour ((CronBuilder.addValue .hour "5"
        ((CronBuilder.set .hour (.array []) defaultExpression).2)).2) = "*,5" :=
  ⟨rfl, by decide, rfl⟩

/-- C6 counterexample: `set month []` does not reset the month field to
the default `["*"]` token list: the stored field is the nested
`[["*"]]`. -/
theorem set_empty_month_not_default_interval :
    getField ((CronBuilder.set .month (.array []) defaultExpression).2) .month
      ≠ defaultField
    ∧ getField ((CronBuilder.set .month (.array []) defaultExpression).2) .month
      = [JVal.arr ["*"]] :=
  ⟨by decide, rfl⟩

/-- C6 (amended): every field's token list is non-empty after every
sequence of builder operations from the default construction;
`removeValue` of the last remaining token leaves `get field = "*"` (the
field is reset to `["*"]`); and `set field []` also leaves
`get field = "*"` — though there the stored list is the nested `[["*"]]`
rather than the default `["*"]` (see the counterexample). -/
theorem fields_never_empty :
    (∀ (ops : List Op) (m : MeasureOfTime),
      getField (runOps defaultExpression ops) m ≠ [])
    ∧ (∀ (s : CronExpresion) (m : MeasureOfTime) (v : String),
      getField s m = [JVal.str v] →
      CronBuilder.get m (CronBuilder.removeValue m v s).2 = "*")
    ∧ (∀ (s : CronExpresion) (m : MeasureOfTime),
      CronBuilder.get m (CronBuilder.set m (.array []) s).2 = "*") := by
  refine ⟨?_, ?_, ?_⟩
  · intro ops m
    exact fieldsNonempty_runOps ops defaultExpression fieldsNonempty_default m
  · intro s m v h
    rw [CronBuilder.get, CronBuilder.removeValue]
    dsimp only
    rw [h]
    by_cases hv : v = "*"
    · subst hv
      rw [if_pos rfl]
      dsimp only
      rw [h]
      rfl
    · rw [if_neg (by simp [hv])]
      rw [show List.filter (fun t => decide (t ≠ JVal.str v)) [JVal.str v] = []
        from by simp]
      rw [if_pos rfl]
      dsimp only
      rw [getField_setField_same]
      exact joinField_default
  · intro s m
    rw [CronBuilder.get]
    show joinField (getField (setField s m [JVal.arr DEFAULT_INTERVAL]) m) = "*"
    rw [getField_setField_same]
    exact joinField_single_arr

/-- Witness for `fields_never_empty`: removing the token of a singleton
field: on the default builder, minute is `["*"]` and removing `"*"`
leaves `get minute = "*"`. -/
theorem fields_never_empty_witness :
    getField defaultExpression .minute = [JVal.str "*"]
    ∧ CronBuilder.get .minute
        (CronBuilder.removeValue .minute "*" defaultExpression).2 = "*" :=
  ⟨rfl, fields_never_empty.2.1 defaultExpression .minute "*" rfl⟩

/-- C7: `setAll` leaves every omitted field at its prior value, and
`setAll {hour := ["5"]}` on a default builder changes only the hour
field. -/
theorem setAll_frame_property :
    (∀ (s : CronExpresion) (eo : CronExpressionInput) (m : MeasureOfTime),
      inputField eo m = none →
      getField (CronBuilder.setAll eo s).2 m = getField s m)
    ∧ (CronBuilder.setAll { hour := some ["5"] } defaultExpression).2
        = { defaultExpression with hour := [JVal.str "5"] } := by
  constructor
  · intro s eo m h
    rw [CronBuilder.setAll]
    split
    · rfl
    · exact setAllSets_frame _ _ _ (not_mem_presentEntries h)
  · rfl

/-- Witness for `setAll_frame_property`: the minute field is omitted from
`{hour := ["5"]}` and is unchanged by the call. -/
theorem setAll_frame_property_witness :
    inputField { hour := some ["5"] } .minute = none
    ∧ getField (CronBuilder.setAll { hour := some ["5"] }
        defaultExpression).2 .minute = getField defaultExpression .minute :=
  ⟨rfl, setAll_frame_property.1 defaultExpression { hour := some ["5"] } .minute rfl⟩

/-- C8: `removeValue` on a field holding exactly the default `["*"]`
returns the informational sentinel message and leaves the state
unchanged, so `get field` still returns `"*"`. -/
theorem removeValue_default_is_noop (s : CronExpresion) (m : MeasureOfTime) (v : String)
    (h : getField s m = [JVal.str "*"]) :
    CronBuilder.removeValue m v s = (.ok (some (CronBuilder.noOpMessage m)), s)
    ∧ CronBuilder.get m s = "*" := by
  constructor
  · rw [CronBuilder.removeValue]
    dsimp only
    rw [h, if_pos rfl]
  · rw [CronBuilder.get, h]
    rfl

/-- Witness for `removeValue_default_is_noop` on the default builder's
hour field. -/
theorem removeValue_default_is_noop_witness :
    getField defaultExpression .hour = [JVal.str "*"]
    ∧ CronBuilder.removeValue .hour "7" defaultExpression
        = (.ok (some (CronBuilder.noOpMessage .hour)), defaultExpression) :=
  ⟨rfl, (removeValue_default_is_noop defaultExpression .hour "7" rfl).1⟩

/-- C9: a builder constructed with no initial expression has every field
equal to `["*"]` and `build` returns `"* * * * *"`. -/
theorem default_construction_builds_wildcards :
    CronBuilder.new none = .ok defaultExpression
    ∧ (∀ m : MeasureOfTime, getField defaultExpression m = [JVal.str "*"])
    ∧ CronBuilder.build defaultExpression = "* * * * *" := by
  refine ⟨rfl, ?_, rfl⟩
  intro m
  cases m <;> rfl

/-- C10: the empty token passes `validateValue` for every field: it has no
forbidden character, is not `*`, has no comma, and `parseInt ""` is `NaN`,
for which both range comparisons are false; hence a comma list with empty
parts such as `"5,,7"` also passes. -/
theorem empty_token_passes_validation :
    (∀ m : MeasureOfTime, CronValidator.validateValue m "" = .ok ())
    ∧ CronValidator.validateValue .minute "5,,7" = .ok () := by
  refine ⟨?_, rfl⟩
  intro m
  cases m <;> rfl
